import Mathlib

/-!
Shallow embedding of the arb-bot price-feed core: the `PriceState` cache
(src/state/price.rs, src/state/types.rs), the `ReconnectionStrategy` backoff
calculator (src/websocket/reconnect.rs), and the two ticker-message parsers
(src/exchanges/binance/parser.rs, src/exchanges/coinbase/parser.rs).

Modelling conventions:
- Rust `String`/`&str` values are `List Char` (`Str`); UTF-8 byte positions are
  computed from the characters' UTF-8 encoded sizes where the source slices by
  byte index.
- `rust_decimal::Decimal` values are modelled as exact rationals (`Rat`); the
  crate's `from_str_exact` is modelled by `from_str_exact` below on the plain
  format sign? digits [. digits] with the crate's scale bound of 28 and 96-bit
  mantissa bound.
- `std::time::Instant` and `Duration` are nanosecond counts (`Nat`); the
  ambient clock is an explicit `now : Nat` argument. `Instant::elapsed` and
  `Duration` subtraction saturate at zero, matching truncated `Nat`
  subtraction; `Duration / 2` is truncating division of total nanoseconds.
- `f64` arithmetic inside `ReconnectionStrategy::next_delay` is modelled as
  exact rational arithmetic on seconds; every concrete instance examined below
  involves only powers of two, on which `f64` is exact.
- `serde_json::Value` is the inductive `Json`; indexing a non-object or a
  missing key yields `Json.null`, as in serde_json.
-/

set_option maxRecDepth 100000

/-- Rust strings, as their character sequence. -/
abbrev Str := List Char

/-- Size in bytes of one character's UTF-8 encoding. -/
def utf8Size (c : Char) : Nat :=
  if c.toNat < 0x80 then 1
  else if c.toNat < 0x800 then 2
  else if c.toNat < 0x10000 then 3
  else 4

/-- Byte length of a string's UTF-8 encoding (Rust `str::len`). -/
def byteLen (s : Str) : Nat := (s.map utf8Size).sum

/-- Splits a string at a byte index, as Rust `&s[..n]` / `&s[n..]` does:
`none` models the panic when `n` is not a character boundary (inside a
multi-byte character, or past the end of the string). -/
def byteSplitAt : Str → Nat → Option (Str × Str)
  | s, 0 => some ([], s)
  | [], _ + 1 => none
  | c :: rest, n + 1 =>
    if utf8Size c ≤ n + 1 then
      (byteSplitAt rest (n + 1 - utf8Size c)).map (fun p => (c :: p.1, p.2))
    else none

/-- serde_json's JSON value tree (`serde_json::Value`). -/
inductive Json where
  | null : Json
  | bool (b : Bool) : Json
  | num (q : Rat) : Json
  | str (s : Str) : Json
  | arr (elems : List Json) : Json
  | obj (fields : List (Str × Json)) : Json

/-- Looks up a key in an object's field list (first match). -/
def jFind (k : Str) : List (Str × Json) → Json
  | [] => .null
  | (k0, v) :: rest => if k0 = k then v else jFind k rest

/-- serde_json indexing `value[k]`: `Null` on a non-object or a missing key. -/
def jGet (v : Json) (k : Str) : Json :=
  match v with
  | .obj fields => jFind k fields
  | _ => .null

/-- serde_json `value[k].as_str()`. -/
def jGetStr (v : Json) (k : Str) : Option Str :=
  match jGet v k with
  | .str s => some s
  | _ => none

/-- serde_json `value[k].as_array()`. -/
def jGetArr (v : Json) (k : Str) : Option (List Json) :=
  match jGet v k with
  | .arr elems => some elems
  | _ => none

/-- Scans the digits (and at most one decimal point) of a decimal literal,
accumulating the mantissa and the number of fractional digits; `none` when a
non-digit appears or no digit was seen. Mirrors rust_decimal's scan. -/
def scanDecimal : Str → Nat → Nat → Bool → Bool → Option (Nat × Nat)
  | [], m, sc, seenDigit, _ => if seenDigit then some (m, sc) else none
  | c :: rest, m, sc, seenDigit, seenPoint =>
    if c.isDigit then
      scanDecimal rest (m * 10 + (c.toNat - 48)) (if seenPoint then sc + 1 else sc)
        true seenPoint
    else if c = '.' && !seenPoint then
      scanDecimal rest m sc seenDigit true
    else none

/-- Models `rust_decimal::Decimal::from_str_exact` on the plain decimal format
(optional sign, digits, at most one point): the exact rational value denoted by
the string, `none` on any parse failure, on more than 28 fractional digits
(the crate's `Underflow`), or on a mantissa needing more than 96 bits (the
crate's overflow). Exotic crate-accepted forms (underscore separators) are
outside the modelled domain. -/
def from_str_exact (s : Str) : Option Rat :=
  let signAndRest : Int × Str :=
    match s with
    | '-' :: r => (-1, r)
    | '+' :: r => (1, r)
    | r => (1, r)
  match scanDecimal signAndRest.2 0 0 false false with
  | none => none
  | some (m, sc) =>
    if sc ≤ 28 && m < 2 ^ 96 then
      some ((signAndRest.1 * (m : Int) : Int) / (10 ^ sc : Nat) : Rat)
    else none

/-- Normalized price snapshot (src/exchanges/types.rs `Price`). The
`timestamp: DateTime<Utc>` field is omitted: it is filled from the ambient
wall clock (`Utc::now`) or the message's time string, and no claim refers
to it. -/
structure Price where
  pair : Str
  bid : Rat
  ask : Rat
  last : Rat
  volume_24h : Rat
deriving DecidableEq, Repr

/-- `Price::mid_price`: (bid + ask) / 2. -/
def Price.mid_price (p : Price) : Rat := (p.bid + p.ask) / 2

/-- `Price::spread`: ask - bid. -/
def Price.spread (p : Price) : Rat := p.ask - p.bid

/-- Exchange discriminant (src/state/types.rs `ExchangeId`). -/
inductive ExchangeId where
  | Binance
  | Coinbase
deriving DecidableEq, Repr

/-- Cached price plus metadata (src/state/types.rs `PriceData`); `timestamp`
is the monotonic local receipt instant, in nanoseconds. -/
structure PriceData where
  price : Price
  timestamp : Nat
  sequence : Nat
deriving DecidableEq, Repr

/-- `PriceData::age`: elapsed time since capture; `Instant`-based, saturating
at zero (truncated Nat subtraction). -/
def PriceData.age (d : PriceData) (now : Nat) : Nat := now - d.timestamp

/-- `PriceData::is_stale`: age strictly greater than `max_age`. -/
def PriceData.is_stale (d : PriceData) (now max_age : Nat) : Bool :=
  decide (max_age < d.age now)

/-- The price cache (src/state/price.rs `PriceState`): the HashMap is modelled
as an association list with distinct keys; `max_age` is in nanoseconds. -/
structure PriceState where
  prices : List ((ExchangeId × Str) × PriceData)
  max_age : Nat

/-- `PriceState::get_price`: lookup of the (exchange, pair) key. -/
def PriceState.get_price (st : PriceState) (exchange : ExchangeId) (pair : Str) :
    Option PriceData :=
  st.prices.lookup (exchange, pair)

/-- Absolute difference of two instants, as `get_spread` computes it by
branching on which is larger before calling `duration_since`. -/
def instantDiff (t1 t2 : Nat) : Nat := if t1 > t2 then t1 - t2 else t2 - t1

/-- `PriceState::get_spread`: `None` when either price is missing, either is
stale, or the capture instants differ by more than `max_age / 2`; otherwise
the absolute difference of mid-prices. -/
def PriceState.get_spread (st : PriceState) (now : Nat) (ex1 ex2 : ExchangeId)
    (pair : Str) : Option Rat :=
  match st.get_price ex1 pair with
  | none => none
  | some price1 =>
    match st.get_price ex2 pair with
    | none => none
    | some price2 =>
      if price1.is_stale now st.max_age || price2.is_stale now st.max_age then
        none
      else
        let time_diff := instantDiff price1.timestamp price2.timestamp
        let max_time_diff := st.max_age / 2
        if time_diff > max_time_diff then none
        else some (abs (price2.price.mid_price - price1.price.mid_price))

/-- `PriceState::get_spread_percentage`: spread divided by the first
exchange's mid-price, times 100; `None` when `get_spread` is `None` or that
mid-price is zero. -/
def PriceState.get_spread_percentage (st : PriceState) (now : Nat)
    (ex1 ex2 : ExchangeId) (pair : Str) : Option Rat :=
  match st.get_spread now ex1 ex2 pair with
  | none => none
  | some spread =>
    match st.get_price ex1 pair with
    | none => none
    | some price1 =>
      let mid1 := price1.price.mid_price
      if mid1 = 0 then none
      else some (spread / mid1 * 100)

/-- `PriceState::is_stale`: `false` when the price does not exist. -/
def PriceState.is_stale (st : PriceState) (now : Nat) (exchange : ExchangeId)
    (pair : Str) : Bool :=
  match st.get_price exchange pair with
  | some price_data => price_data.is_stale now st.max_age
  | none => false

/-- `PriceState::remove_stale_prices`: retains the non-stale entries and
returns the new state together with `initial_count - retained_count`. -/
def PriceState.remove_stale_prices (st : PriceState) (now : Nat) :
    PriceState × Nat :=
  let kept := st.prices.filter (fun e => !(e.2.is_stale now st.max_age))
  ({ st with prices := kept }, st.prices.length - kept.length)

/-- Backoff calculator (src/websocket/reconnect.rs `ReconnectionStrategy`);
delays are in seconds, as exact rationals. -/
structure ReconnectionStrategy where
  max_retries : Option Nat
  current_retry : Nat
  initial_delay : Rat
  max_delay : Rat
  multiplier : Rat
deriving DecidableEq, Repr

/-- Value of the Rust expression `u64::MAX as f64`: the cast rounds
18446744073709551615 up to 2^64, the nearest representable double. -/
def u64MaxAsF64 : Rat := 2 ^ 64

/-- `ReconnectionStrategy::new`: zero attempts so far, multiplier 2.0. -/
def ReconnectionStrategy.new (max_retries : Option Nat)
    (initial_delay max_delay : Rat) : ReconnectionStrategy :=
  { max_retries := max_retries
    current_retry := 0
    initial_delay := initial_delay
    max_delay := max_delay
    multiplier := 2 }

/-- `ReconnectionStrategy::exponential_backoff`: 10 retries, 1s to 60s. -/
def ReconnectionStrategy.exponential_backoff : ReconnectionStrategy :=
  ReconnectionStrategy.new (some 10) 1 60

/-- `ReconnectionStrategy::should_retry`. -/
def ReconnectionStrategy.should_retry (s : ReconnectionStrategy) : Bool :=
  match s.max_retries with
  | some max => decide (s.current_retry < max)
  | none => true

/-- `ReconnectionStrategy::next_delay`: the returned delay and the updated
strategy. The exponent is clamped at 30, the result at `max_delay` and at
`u64::MAX as f64`; the counter increment is the one side effect. -/
def ReconnectionStrategy.next_delay (s : ReconnectionStrategy) :
    Rat × ReconnectionStrategy :=
  let exponent := min s.current_retry 30
  let multiplier_power := s.multiplier ^ exponent
  let delay_secs := s.initial_delay * multiplier_power
  let next := { s with current_retry := s.current_retry + 1 }
  let capped_secs := min delay_secs s.max_delay
  (min capped_secs u64MaxAsF64, next)

/-- `ReconnectionStrategy::reset`: counter back to zero. -/
def ReconnectionStrategy.reset (s : ReconnectionStrategy) :
    ReconnectionStrategy :=
  { s with current_retry := 0 }

/-- State after k successive `next_delay` calls. -/
def ReconnectionStrategy.stepN (s : ReconnectionStrategy) : Nat → ReconnectionStrategy
  | 0 => s
  | k + 1 => ((s.stepN k).next_delay).2

/-- Delay returned by the (k+1)-th `next_delay` call (0-indexed k). -/
def ReconnectionStrategy.delayAt (s : ReconnectionStrategy) (k : Nat) : Rat :=
  ((s.stepN k).next_delay).1

/-- Parse-failure reasons of `BinanceParser::parse`, one per error site. -/
inductive BinanceErr where
  | invalidJson
  | missingEventType
  | notTicker
  | missingSymbol
  | missingClose
  | missingBid
  | missingAsk
  | invalidClose
  | invalidBid
  | invalidAsk
  | invalidVolume
deriving DecidableEq, Repr

/-- Result of `BinanceParser::parse`: a `Price`, an error, or a panic (the
byte-index string slicings are the only panic sources). -/
inductive BinanceOutcome where
  | ok (p : Price)
  | err (e : BinanceErr)
  | panic
deriving DecidableEq, Repr

/-- `BinanceParser::symbol_to_pair`: for a symbol of at least 6 bytes, splits
at the byte midpoint into BASE/QUOTE; `none` models the slicing panic when
the midpoint is not a character boundary. Shorter symbols fall back to
UNKNOWN/symbol. -/
def symbol_to_pair (symbol : Str) : Option Str :=
  if 6 ≤ byteLen symbol then
    match byteSplitAt symbol (byteLen symbol / 2) with
    | none => none
    | some (base, quote) => some (base ++ '/' :: quote)
  else some ("UNKNOWN/".toList ++ symbol)

/-- `BinanceParser::pair_to_symbol`: drop slashes and uppercase. -/
def pair_to_symbol (pair : Str) : Str :=
  (pair.filter (fun c => c ≠ '/')).map Char.toUpper

/-- The message-preview slice at the top of `BinanceParser::parse`:
`&message[..200]` on messages longer than 200 bytes; `none` models the panic
when byte 200 is not a character boundary. -/
def binancePreview (message : Str) : Option Str :=
  if 200 < byteLen message then
    (byteSplitAt message 200).map (fun p => p.1 ++ "...".toList)
  else some message

/-- Body of `BinanceParser::parse` after `serde_json::from_str` succeeded:
event-type check, symbol extraction and midpoint split, required price
fields, optional volume defaulting to "0", decimal parsing in source order. -/
def binanceParseJson (v : Json) : BinanceOutcome :=
  match jGetStr v "e".toList with
  | none => .err .missingEventType
  | some event_type =>
    if event_type ≠ "24hrTicker".toList then .err .notTicker
    else
      match jGetStr v "s".toList with
      | none => .err .missingSymbol
      | some symbol =>
        match symbol_to_pair symbol with
        | none => .panic
        | some pair =>
          match jGetStr v "c".toList with
          | none => .err .missingClose
          | some last_str =>
            match jGetStr v "b".toList with
            | none => .err .missingBid
            | some bid_str =>
              match jGetStr v "a".toList with
              | none => .err .missingAsk
              | some ask_str =>
                let volume_str := (jGetStr v "v".toList).getD "0".toList
                match from_str_exact last_str with
                | none => .err .invalidClose
                | some last =>
                  match from_str_exact bid_str with
                  | none => .err .invalidBid
                  | some bid =>
                    match from_str_exact ask_str with
                    | none => .err .invalidAsk
                    | some ask =>
                      match from_str_exact volume_str with
                      | none => .err .invalidVolume
                      | some volume =>
                        .ok { pair := pair, bid := bid, ask := ask,
                              last := last, volume_24h := volume }

/-- `BinanceParser::parse` on the raw message text. The preview slice runs
first on the raw bytes; the `serde_json::from_str` step is taken as a
parameter `j` (the parsed tree, `none` for malformed JSON), since JSON text
parsing is external library code. -/
def binanceParse (message : Str) (j : Option Json) : BinanceOutcome :=
  match binancePreview message with
  | none => .panic
  | some _ =>
    match j with
    | none => .err .invalidJson
    | some v => binanceParseJson v

/-- Failure reasons of `CoinbaseParser::parse`, one per error site. -/
inductive CoinbaseErr where
  | invalidJson
  | coinbaseError
  | subscriptions
  | notTicker
  | missingEvents
  | emptyEvents
  | missingTickers
  | emptyTickers
  | missingProductId
  | missingPrice
  | missingBestBid
  | missingBestAsk
  | invalidPrice
  | invalidBestBid
  | invalidBestAsk
  | invalidVolume
deriving DecidableEq, Repr

/-- `CoinbaseParser::product_id_to_pair`: replace every '-' with '/'. -/
def product_id_to_pair (product_id : Str) : Str :=
  product_id.map (fun c => if c = '-' then '/' else c)

/-- `CoinbaseParser::pair_to_product_id`: replace every '/' with '-'. -/
def pair_to_product_id (pair : Str) : Str :=
  pair.map (fun c => if c = '/' then '-' else c)

/-- Ticker-locating prefix of `CoinbaseParser::parse`: error and
subscription messages are distinguishable failures; a flat ticker is the
message itself; an Advanced Trade envelope yields the first event's first
ticker; anything else is not a ticker message. -/
def coinbaseTicker (v : Json) : Except CoinbaseErr Json :=
  if jGetStr v "type".toList = some "error".toList then .error .coinbaseError
  else if jGetStr v "type".toList = some "subscriptions".toList then
    .error .subscriptions
  else if jGetStr v "type".toList = some "ticker".toList then .ok v
  else if jGetStr v "channel".toList = some "ticker".toList then
    match jGetArr v "events".toList with
    | none => .error .missingEvents
    | some events =>
      match events with
      | [] => .error .emptyEvents
      | e0 :: _ =>
        match jGetArr e0 "tickers".toList with
        | none => .error .missingTickers
        | some tickers =>
          match tickers with
          | [] => .error .emptyTickers
          | t0 :: _ => .ok t0
  else .error .notTicker

/-- Volume string of a Coinbase ticker: "volume_24h", else "volume_24_h",
else "0". -/
def coinbaseVolumeStr (ticker : Json) : Str :=
  ((jGetStr ticker "volume_24h".toList).or
    (jGetStr ticker "volume_24_h".toList)).getD "0".toList

/-- Body of `CoinbaseParser::parse` after `serde_json::from_str` succeeded:
locate the ticker, extract product_id and the price fields, parse decimals in
source order. The message timestamp handling is omitted along with the
`Price.timestamp` field. -/
def coinbaseParseJson (v : Json) : Except CoinbaseErr Price :=
  match coinbaseTicker v with
  | .error e => .error e
  | .ok ticker =>
    match jGetStr ticker "product_id".toList with
    | none => .error .missingProductId
    | some product_id =>
      let pair := product_id_to_pair product_id
      match jGetStr ticker "price".toList with
      | none => .error .missingPrice
      | some last_str =>
        match jGetStr ticker "best_bid".toList with
        | none => .error .missingBestBid
        | some bid_str =>
          match jGetStr ticker "best_ask".toList with
          | none => .error .missingBestAsk
          | some ask_str =>
            let volume_str := coinbaseVolumeStr ticker
            match from_str_exact last_str with
            | none => .error .invalidPrice
            | some last =>
              match from_str_exact bid_str with
              | none => .error .invalidBestBid
              | some bid =>
                match from_str_exact ask_str with
                | none => .error .invalidBestAsk
                | some ask =>
                  match from_str_exact volume_str with
                  | none => .error .invalidVolume
                  | some volume =>
                    .ok { pair := pair, bid := bid, ask := ask,
                          last := last, volume_24h := volume }

/-- `CoinbaseParser::parse` with the `serde_json::from_str` result as a
parameter (`none` for malformed JSON); the Coinbase parser performs no raw
byte slicing, so it needs no panic case. -/
def coinbaseParse (j : Option Json) : Except CoinbaseErr Price :=
  match j with
  | none => .error .invalidJson
  | some v => coinbaseParseJson v

/-- Concrete strategy for the C2 counterexample: attempt counter 0, initial
delay 1s, max delay 2^40 s (constructible as `Duration::from_secs(1 << 40)`),
default multiplier 2. -/
def c2Strategy : ReconnectionStrategy :=
  { max_retries := none
    current_retry := 0
    initial_delay := 1
    max_delay := 2 ^ 40
    multiplier := 2 }

/-- Concrete Binance-side price used by the state witnesses. -/
def wPrice1 : Price := { pair := "SOL/USDC".toList, bid := 100, ask := 101, last := 100, volume_24h := 0 }

/-- Concrete Coinbase-side price used by the state witnesses. -/
def wPrice2 : Price := { pair := "SOL/USDC".toList, bid := 102, ask := 103, last := 102, volume_24h := 0 }

/-- Concrete cache with both exchanges' prices captured 100ns apart and a
5-second `max_age`, read at instant 2000. -/
def wState : PriceState :=
  { prices := [((ExchangeId.Binance, "SOL/USDC".toList), { price := wPrice1, timestamp := 1000, sequence := 1 }),
               ((ExchangeId.Coinbase, "SOL/USDC".toList), { price := wPrice2, timestamp := 1100, sequence := 1 })]
    max_age := 5000000000 }

/-- Binance ticker JSON with every required field but no volume field "v"
(the tree of a message such as
a 24hrTicker object carrying only e, s, c, b, a). -/
def c3Json : Json :=
  .obj [("e".toList, .str "24hrTicker".toList),
        ("s".toList, .str "SOLUSDC".toList),
        ("c".toList, .str "101".toList),
        ("b".toList, .str "100".toList),
        ("a".toList, .str "102".toList)]

/-- Complete well-formed Binance ticker tree, as in the repository's own
parser test. -/
def c4BinanceJson : Json :=
  .obj [("e".toList, .str "24hrTicker".toList),
        ("s".toList, .str "SOLUSDC".toList),
        ("c".toList, .str "143.50".toList),
        ("b".toList, .str "143.48".toList),
        ("a".toList, .str "143.52".toList),
        ("v".toList, .str "1234567.89".toList)]

/-- Complete well-formed flat Coinbase ticker tree, as in the repository's
own parser test. -/
def c4CoinbaseJson : Json :=
  .obj [("type".toList, .str "ticker".toList),
        ("product_id".toList, .str "SOL-USDC".toList),
        ("price".toList, .str "143.50".toList),
        ("best_bid".toList, .str "143.48".toList),
        ("best_ask".toList, .str "143.52".toList),
        ("volume_24h".toList, .str "1234567.89".toList)]

/-- Message of 202 bytes whose bytes 199-200 are the two-byte character £:
byte index 200 is not a character boundary, so the preview slice
of the source panics on it. -/
def c10Message : Str := List.replicate 199 'a' ++ ['£', 'b']

/-- A symbol of 6 bytes (££AB) whose byte midpoint 3 falls inside the second
two-byte character £. -/
def c10Symbol : Str := "££AB".toList

/-- Ticker tree carrying the 6-byte symbol ££AB whose midpoint split
panics. -/
def c10SymbolJson : Json :=
  .obj [("e".toList, .str "24hrTicker".toList),
        ("s".toList, .str c10Symbol)]

/-- Binance ticker tree missing the required close-price field "c". -/
def c3MissingClose : Json :=
  .obj [("e".toList, .str "24hrTicker".toList),
        ("s".toList, .str "SOLUSDC".toList)]

/-- Coinbase subscription-confirmation tree: its discriminant is neither a
flat-ticker "type" nor an envelope "channel". -/
def cSubscriptionsJson : Json :=
  .obj [("type".toList, .str "subscriptions".toList)]

/-- All characters of a string are ASCII (one UTF-8 byte each). -/
def asciiStr (s : Str) : Prop := ∀ c ∈ s, c.toNat < 128

instance (s : Str) : Decidable (asciiStr s) := by
  unfold asciiStr
  infer_instance


/-- After k `next_delay` calls only the attempt counter has changed, by k. -/
theorem ReconnectionStrategy.stepN_eq (s : ReconnectionStrategy) (k : Nat) :
    s.stepN k = { s with current_retry := s.current_retry + k } := by
  induction k with
  | zero => rfl
  | succ k ih =>
    show ((s.stepN k).next_delay).2 = _
    rw [ih]
    show ({ s with current_retry := s.current_retry + k + 1 } : ReconnectionStrategy) = _
    rfl

/-- Closed form of the delay returned by the (k+1)-th `next_delay` call. -/
theorem ReconnectionStrategy.delayAt_eq (s : ReconnectionStrategy) (k : Nat) :
    s.delayAt k =
      min (min (s.initial_delay * s.multiplier ^ (min (s.current_retry + k) 30)) s.max_delay)
        u64MaxAsF64 := by
  unfold ReconnectionStrategy.delayAt
  rw [ReconnectionStrategy.stepN_eq]
  rfl

/-- C2 (amended): next_delay returns initial_delay * multiplier^min(count,30)
clamped to max_delay (and to the f64 image of u64::MAX), computed from the
pre-call counter, and its only side effect is incrementing the counter; with
the default multiplier 2.0 the successive delays are non-decreasing and capped
at max_delay, and the k-th delay equals initial_delay * 2^min(k,30) as long as
that value has not reached the max_delay cap. -/
theorem next_delay_spec (s : ReconnectionStrategy) :
    ((s.next_delay).1 =
        min (min (s.initial_delay * s.multiplier ^ (min s.current_retry 30)) s.max_delay)
          u64MaxAsF64
      ∧ (s.next_delay).2 = { s with current_retry := s.current_retry + 1 })
    ∧ (s.multiplier = 2 → 0 ≤ s.initial_delay → s.max_delay ≤ u64MaxAsF64 →
        (∀ k, s.delayAt k ≤ s.delayAt (k + 1))
        ∧ (∀ k, s.delayAt k ≤ s.max_delay)
        ∧ (s.current_retry = 0 →
            ∀ k, s.initial_delay * 2 ^ (min k 30) ≤ s.max_delay →
              s.delayAt k = s.initial_delay * 2 ^ (min k 30))) := by
  refine ⟨⟨rfl, rfl⟩, fun hm hi hM => ⟨?_, ?_, ?_⟩⟩
  · intro k
    rw [ReconnectionStrategy.delayAt_eq, ReconnectionStrategy.delayAt_eq, hm]
    refine min_le_min (min_le_min ?_ le_rfl) le_rfl
    refine mul_le_mul_of_nonneg_left ?_ hi
    exact pow_le_pow_right₀ (by norm_num) (min_le_min (by omega) le_rfl)
  · intro k
    rw [ReconnectionStrategy.delayAt_eq]
    exact le_trans (min_le_left _ _) (min_le_right _ _)
  · intro h0 k hk
    rw [ReconnectionStrategy.delayAt_eq, hm, h0, Nat.zero_add]
    rw [min_eq_left hk, min_eq_left (le_trans hk hM)]

/-- C2 counterexample: for the concrete strategy with initial delay 1s,
max delay 2^40 s and default multiplier 2, the 32nd delay (index k = 31) is
2^30 seconds although initial_delay * 2^31 has not reached the max_delay cap,
so the claim that the k-th element equals initial_delay * 2^k before the cap
is reached is false at k = 31. -/
theorem next_delay_counterexample :
    c2Strategy.multiplier = 2 ∧ c2Strategy.current_retry = 0
    ∧ c2Strategy.initial_delay * 2 ^ 31 ≤ c2Strategy.max_delay
    ∧ c2Strategy.delayAt 31 = 2 ^ 30
    ∧ (2 ^ 30 : Rat) ≠ c2Strategy.initial_delay * 2 ^ 31 := by
  refine ⟨rfl, rfl, by norm_num [c2Strategy], ?_, by norm_num [c2Strategy]⟩
  rw [ReconnectionStrategy.delayAt_eq]
  show min (min ((1 : Rat) * 2 ^ (min 31 30)) (2 ^ 40)) u64MaxAsF64 = 2 ^ 30
  rw [u64MaxAsF64]
  norm_num

/-- C2 witness: the default exponential_backoff strategy satisfies the
hypotheses of next_delay_spec, whose exact-value clause yields the delay 8s
at index k = 3. -/
theorem next_delay_spec_witness :
    ReconnectionStrategy.exponential_backoff.delayAt 3 = 8 := by
  have h := ((next_delay_spec ReconnectionStrategy.exponential_backoff).2
      rfl (by norm_num [ReconnectionStrategy.exponential_backoff, ReconnectionStrategy.new])
      (by norm_num [ReconnectionStrategy.exponential_backoff, ReconnectionStrategy.new, u64MaxAsF64])).2.2
      rfl 3
      (by norm_num [ReconnectionStrategy.exponential_backoff, ReconnectionStrategy.new,
        Nat.min_def])
  rw [h]
  norm_num [ReconnectionStrategy.exponential_backoff, ReconnectionStrategy.new, Nat.min_def]

/-- C7: should_retry is true exactly when the attempt counter is below a
finite configured maximum, and is true after any number of next_delay calls
when max_retries is unset. -/
theorem should_retry_spec (s : ReconnectionStrategy) :
    (∀ max, s.max_retries = some max → (s.should_retry = true ↔ s.current_retry < max))
    ∧ (s.max_retries = none → ∀ k, (s.stepN k).should_retry = true) := by
  constructor
  · intro max hmax
    simp [ReconnectionStrategy.should_retry, hmax]
  · intro hnone k
    rw [ReconnectionStrategy.stepN_eq]
    simp [ReconnectionStrategy.should_retry, hnone]

/-- C7 witness: the default bounded strategy retries at attempt 0, and an
unbounded strategy still retries after 100 next_delay calls. -/
theorem should_retry_spec_witness :
    ReconnectionStrategy.exponential_backoff.should_retry = true
    ∧ ((ReconnectionStrategy.new none 1 60).stepN 100).should_retry = true := by
  constructor
  · exact ((should_retry_spec ReconnectionStrategy.exponential_backoff).1 10 rfl).mpr
      (by norm_num [ReconnectionStrategy.exponential_backoff, ReconnectionStrategy.new])
  · exact (should_retry_spec (ReconnectionStrategy.new none 1 60)).2 rfl 100

/-- C8: after any number of next_delay calls, reset followed by next_delay
returns the same delay as the first next_delay of a freshly constructed
strategy with the same policy fields. -/
theorem reset_next_delay_spec (s : ReconnectionStrategy) (k : Nat) :
    (((s.stepN k).reset).next_delay).1 =
      ((ReconnectionStrategy.mk s.max_retries 0 s.initial_delay s.max_delay
        s.multiplier).next_delay).1 := by
  have h : (s.stepN k).reset =
      ReconnectionStrategy.mk s.max_retries 0 s.initial_delay s.max_delay s.multiplier := by
    rw [ReconnectionStrategy.stepN_eq]
    rfl
  rw [h]

/-- When both prices are present, get_spread is governed exactly by the
staleness of each sample and the gap between the capture instants. -/
theorem get_spread_eq_aux (st : PriceState) (now : Nat) (ex1 ex2 : ExchangeId) (pair : Str)
    (d1 d2 : PriceData) (h1 : st.get_price ex1 pair = some d1)
    (h2 : st.get_price ex2 pair = some d2) :
    st.get_spread now ex1 ex2 pair =
      if st.max_age < d1.age now ∨ st.max_age < d2.age now ∨
          st.max_age / 2 < instantDiff d1.timestamp d2.timestamp then none
      else some (abs (d2.price.mid_price - d1.price.mid_price)) := by
  simp only [PriceState.get_spread, h1, h2, PriceData.is_stale]
  by_cases ha : st.max_age < d1.age now
  · simp [ha]
  · by_cases hb : st.max_age < d2.age now
    · simp [ha, hb]
    · by_cases hc : st.max_age / 2 < instantDiff d1.timestamp d2.timestamp
      · simp [ha, hb, hc]
      · simp [ha, hb, hc]

/-- C1: get_spread is None exactly when either entry is absent, either stored
price's age exceeds max_age, or the capture instants differ by more than
max_age / 2; in every other case it is Some of the absolute difference of the
two mid-prices, where mid-price is (bid + ask) / 2. -/
theorem get_spread_spec (st : PriceState) (now : Nat) (ex1 ex2 : ExchangeId) (pair : Str) :
    (st.get_spread now ex1 ex2 pair = none ↔
      st.get_price ex1 pair = none ∨ st.get_price ex2 pair = none ∨
      (∃ d1 d2, st.get_price ex1 pair = some d1 ∧ st.get_price ex2 pair = some d2 ∧
        (st.max_age < d1.age now ∨ st.max_age < d2.age now ∨
          st.max_age / 2 < instantDiff d1.timestamp d2.timestamp)))
    ∧ (∀ d1 d2, st.get_price ex1 pair = some d1 → st.get_price ex2 pair = some d2 →
        ¬ st.max_age < d1.age now → ¬ st.max_age < d2.age now →
        ¬ st.max_age / 2 < instantDiff d1.timestamp d2.timestamp →
        st.get_spread now ex1 ex2 pair =
          some (abs (d2.price.mid_price - d1.price.mid_price))) := by
  constructor
  · cases h1 : st.get_price ex1 pair with
    | none => simp [PriceState.get_spread, h1]
    | some d1 =>
      cases h2 : st.get_price ex2 pair with
      | none => simp [PriceState.get_spread, h1, h2]
      | some d2 =>
        rw [get_spread_eq_aux st now ex1 ex2 pair d1 d2 h1 h2]
        by_cases hP : st.max_age < d1.age now ∨ st.max_age < d2.age now ∨
            st.max_age / 2 < instantDiff d1.timestamp d2.timestamp
        · rw [if_pos hP]
          constructor
          · intro _
            exact Or.inr (Or.inr ⟨d1, d2, rfl, rfl, hP⟩)
          · intro _
            rfl
        · rw [if_neg hP]
          constructor
          · intro habs
            exact absurd habs (by simp)
          · rintro (h | h | ⟨e1, e2, he1, he2, hcond⟩)
            · exact absurd h (by simp)
            · exact absurd h (by simp)
            · cases Option.some.inj he1
              cases Option.some.inj he2
              exact absurd hcond hP
  · intro d1 d2 h1 h2 hs1 hs2 hd
    rw [get_spread_eq_aux st now ex1 ex2 pair d1 d2 h1 h2, if_neg]
    intro h
    exact h.elim hs1 (fun h => h.elim hs2 hd)

/-- C1 witness: in the concrete two-exchange cache read at instant 2000, both
samples are fresh and 100ns apart, and the spread is |102.5 - 100.5| = 2. -/
theorem get_spread_spec_witness :
    wState.get_spread 2000 ExchangeId.Binance ExchangeId.Coinbase "SOL/USDC".toList = some 2 := by
  have h := (get_spread_spec wState 2000 ExchangeId.Binance ExchangeId.Coinbase "SOL/USDC".toList).2
    { price := wPrice1, timestamp := 1000, sequence := 1 }
    { price := wPrice2, timestamp := 1100, sequence := 1 }
    rfl rfl (by norm_num [PriceData.age, wState]) (by norm_num [PriceData.age, wState])
    (by norm_num [instantDiff, wState])
  rw [h]
  norm_num [Price.mid_price, wPrice1, wPrice2]

/-- C5: remove_stale_prices keeps exactly the entries whose age does not
exceed max_age, unchanged, and returns the number of stale entries removed. -/
theorem remove_stale_prices_spec (st : PriceState) (now : Nat) :
    (∀ k d, (k, d) ∈ ((st.remove_stale_prices now).1).prices ↔
        ((k, d) ∈ st.prices ∧ ¬ st.max_age < d.age now))
    ∧ (st.remove_stale_prices now).2 =
        st.prices.countP (fun e => e.2.is_stale now st.max_age) := by
  constructor
  · intro k d
    simp [PriceState.remove_stale_prices, List.mem_filter, PriceData.is_stale]
  · show st.prices.length - (st.prices.filter fun e => !(e.2.is_stale now st.max_age)).length = _
    rw [← List.countP_eq_length_filter]
    have h := List.length_eq_countP_add_countP
      (p := fun e : (ExchangeId × Str) × PriceData => e.2.is_stale now st.max_age)
      (l := st.prices)
    have hfun : (fun a : (ExchangeId × Str) × PriceData =>
        decide ¬(a.2.is_stale now st.max_age = true)) =
        (fun a : (ExchangeId × Str) × PriceData => !(a.2.is_stale now st.max_age)) := by
      funext a
      simp
    rw [hfun] at h
    omega

/-- C6: get_spread_percentage is None whenever get_spread is, is None when
the first exchange's mid-price is zero, and otherwise is
Some of spread / mid1 * 100. -/
theorem get_spread_percentage_spec (st : PriceState) (now : Nat) (ex1 ex2 : ExchangeId) (pair : Str) :
    (st.get_spread now ex1 ex2 pair = none →
      st.get_spread_percentage now ex1 ex2 pair = none)
    ∧ (∀ q d1, st.get_spread now ex1 ex2 pair = some q →
        st.get_price ex1 pair = some d1 →
        (d1.price.mid_price = 0 → st.get_spread_percentage now ex1 ex2 pair = none)
        ∧ (d1.price.mid_price ≠ 0 →
            st.get_spread_percentage now ex1 ex2 pair =
              some (q / d1.price.mid_price * 100))) := by
  constructor
  · intro h
    simp [PriceState.get_spread_percentage, h]
  · intro q d1 hq h1
    constructor
    · intro hz
      simp [PriceState.get_spread_percentage, hq, h1, hz]
    · intro hz
      simp [PriceState.get_spread_percentage, hq, h1, hz]

/-- C6 witness: in the concrete cache the spread is 2, the Binance mid-price
is 100.5, and the percentage is 2 / 100.5 * 100 = 400/201. -/
theorem get_spread_percentage_spec_witness :
    wState.get_spread_percentage 2000 ExchangeId.Binance ExchangeId.Coinbase "SOL/USDC".toList
      = some (400 / 201) := by
  have h1 : wState.get_price ExchangeId.Binance "SOL/USDC".toList =
      some { price := wPrice1, timestamp := 1000, sequence := 1 } := rfl
  have h2 : wState.get_price ExchangeId.Coinbase "SOL/USDC".toList =
      some { price := wPrice2, timestamp := 1100, sequence := 1 } := rfl
  have hspread : wState.get_spread 2000 ExchangeId.Binance ExchangeId.Coinbase "SOL/USDC".toList
      = some 2 := by
    simp only [PriceState.get_spread, h1, h2]
    norm_num [PriceData.is_stale, PriceData.age, instantDiff, Price.mid_price, wState,
      wPrice1, wPrice2]
  have h := ((get_spread_percentage_spec wState 2000 ExchangeId.Binance ExchangeId.Coinbase
      "SOL/USDC".toList).2 2 { price := wPrice1, timestamp := 1000, sequence := 1 }
      hspread h1).2 (by norm_num [Price.mid_price, wPrice1])
  rw [h]
  norm_num [Price.mid_price, wPrice1]

/-- C9: is_stale is false when no entry exists, and when an entry exists it is
true exactly when the entry's age exceeds max_age. -/
theorem is_stale_spec (st : PriceState) (now : Nat) (exchange : ExchangeId) (pair : Str) :
    (st.get_price exchange pair = none → st.is_stale now exchange pair = false)
    ∧ (∀ d, st.get_price exchange pair = some d →
        (st.is_stale now exchange pair = true ↔ st.max_age < d.age now)) := by
  constructor
  · intro h
    simp [PriceState.is_stale, h]
  · intro d h
    simp [PriceState.is_stale, h, PriceData.is_stale]

/-- C9 witness: the concrete cache has no BTC/USD entry and reports it as not
stale, and its fresh SOL/USDC entry is not stale either. -/
theorem is_stale_spec_witness :
    wState.is_stale 2000 ExchangeId.Binance "BTC/USD".toList = false
    ∧ wState.is_stale 2000 ExchangeId.Binance "SOL/USDC".toList = false := by
  constructor
  · exact (is_stale_spec wState 2000 ExchangeId.Binance "BTC/USD".toList).1 rfl
  · have h := (is_stale_spec wState 2000 ExchangeId.Binance "SOL/USDC".toList).2
      { price := wPrice1, timestamp := 1000, sequence := 1 } rfl
    have hfresh : ¬ (wState.max_age <
        (PriceData.mk wPrice1 1000 1).age 2000) := by
      norm_num [PriceData.age, wState]
    have hne : wState.is_stale 2000 ExchangeId.Binance "SOL/USDC".toList ≠ true :=
      fun hb => hfresh (h.mp hb)
    simpa using hne

/-- An ASCII character occupies one UTF-8 byte. -/
theorem utf8Size_of_ascii {c : Char} (h : c.toNat < 128) : utf8Size c = 1 := by
  simp [utf8Size, h]

/-- For ASCII strings the byte length is the character count. -/
theorem byteLen_of_ascii {s : Str} (h : asciiStr s) : byteLen s = s.length := by
  induction s with
  | nil => rfl
  | cons c rest ih =>
    have hc : c.toNat < 128 := h c (by simp)
    have hrest : asciiStr rest := fun x hx => h x (List.mem_cons_of_mem _ hx)
    simp only [byteLen, List.map_cons, List.sum_cons, utf8Size_of_ascii hc, List.length_cons]
    have := ih hrest
    simp only [byteLen] at this
    omega

/-- For ASCII strings every byte index within the string is a character
boundary, so the byte split never panics and is the character split. -/
theorem byteSplitAt_of_ascii {s : Str} (h : asciiStr s) :
    ∀ n, n ≤ s.length → byteSplitAt s n = some (s.take n, s.drop n) := by
  induction s with
  | nil =>
    intro n hn
    have h0 : n = 0 := Nat.le_zero.mp (by simpa using hn)
    subst h0
    rfl
  | cons c rest ih =>
    intro n hn
    cases n with
    | zero => rfl
    | succ n =>
      have hc : utf8Size c = 1 := utf8Size_of_ascii (h c (by simp))
      have hrest : asciiStr rest := fun x hx => h x (List.mem_cons_of_mem _ hx)
      simp only [byteSplitAt, hc]
      rw [if_pos (by omega)]
      have hsub : n + 1 - 1 = n := by omega
      rw [hsub, ih hrest n (by simpa using hn)]
      simp

/-- On an ASCII symbol of at least 6 characters the midpoint split succeeds
and is the character-midpoint split. -/
theorem symbol_to_pair_of_ascii {s : Str} (h : asciiStr s) (h6 : 6 ≤ s.length) :
    symbol_to_pair s = some (s.take (s.length / 2) ++ '/' :: s.drop (s.length / 2)) := by
  unfold symbol_to_pair
  rw [byteLen_of_ascii h, if_pos h6,
    byteSplitAt_of_ascii h (s.length / 2) (Nat.div_le_self _ _)]

/-- On ASCII symbols the midpoint split never panics. -/
theorem symbol_to_pair_ascii_ne_none {s : Str} (h : asciiStr s) :
    symbol_to_pair s ≠ none := by
  unfold symbol_to_pair
  rw [byteLen_of_ascii h]
  by_cases h6 : 6 ≤ s.length
  · rw [if_pos h6, byteSplitAt_of_ascii h (s.length / 2) (Nat.div_le_self _ _)]
    simp
  · rw [if_neg h6]
    simp

/-- On ASCII messages the 200-byte preview slice never panics. -/
theorem binancePreview_ascii_ne_none {m : Str} (h : asciiStr m) :
    binancePreview m ≠ none := by
  unfold binancePreview
  rw [byteLen_of_ascii h]
  by_cases h200 : 200 < m.length
  · rw [if_pos h200, byteSplitAt_of_ascii h 200 (by omega)]
    simp
  · rw [if_neg h200]
    simp

/-- C3 (amended): for both parsers, a wrong or absent message-type
discriminant, or a missing symbol / product id, last or close price, best
bid, or best ask field, makes parse fail — it never returns a Price. The
volume field is not required: a missing volume defaults to "0". -/
theorem parse_missing_field_spec :
    (∀ (v : Json) (p : Price),
      (jGetStr v "e".toList = none
        ∨ (∃ e, jGetStr v "e".toList = some e ∧ e ≠ "24hrTicker".toList)
        ∨ jGetStr v "s".toList = none
        ∨ jGetStr v "c".toList = none
        ∨ jGetStr v "b".toList = none
        ∨ jGetStr v "a".toList = none) →
      binanceParseJson v ≠ BinanceOutcome.ok p)
    ∧ (∀ (v : Json) (p : Price),
      ((jGetStr v "type".toList ≠ some "ticker".toList
          ∧ jGetStr v "channel".toList ≠ some "ticker".toList)
        ∨ (∃ t, coinbaseTicker v = Except.ok t
            ∧ (jGetStr t "product_id".toList = none
              ∨ jGetStr t "price".toList = none
              ∨ jGetStr t "best_bid".toList = none
              ∨ jGetStr t "best_ask".toList = none))) →
      coinbaseParseJson v ≠ Except.ok p) := by
  constructor
  · rintro v p (h | ⟨e, he, hne⟩ | h | h | h | h) <;>
      (unfold binanceParseJson; (repeat' split) <;> simp_all)
  · rintro v p (⟨h1, h2⟩ | ⟨t, ht, hmiss⟩)
    · have hne : ∀ t, coinbaseTicker v ≠ Except.ok t := by
        intro t
        unfold coinbaseTicker
        (repeat' split) <;> simp_all
      unfold coinbaseParseJson
      cases hct : coinbaseTicker v with
      | error e => simp
      | ok t => exact absurd hct (hne t)
    · unfold coinbaseParseJson
      rw [ht]
      rcases hmiss with h | h | h | h <;> ((repeat' split) <;> simp_all)

/-- C3 counterexample: a Binance ticker message with every required field but
no volume field "v" parses successfully with volume 0, refuting the claim
that a missing volume field yields a failure. -/
theorem parse_missing_field_counterexample :
    jGetStr c3Json "v".toList = none
    ∧ binanceParseJson c3Json = BinanceOutcome.ok
        { pair := "SOL/USDC".toList, bid := 100, ask := 102, last := 101, volume_24h := 0 } := by
  constructor
  · rfl
  · have h : binanceParseJson c3Json = BinanceOutcome.ok
        { pair := "SOL/USDC".toList,
          bid := ((1 * 100 : Int) / (10 ^ 0 : Nat) : Rat),
          ask := ((1 * 102 : Int) / (10 ^ 0 : Nat) : Rat),
          last := ((1 * 101 : Int) / (10 ^ 0 : Nat) : Rat),
          volume_24h := ((1 * 0 : Int) / (10 ^ 0 : Nat) : Rat) } := rfl
    rw [h]
    norm_num

/-- C3 witness: a Binance ticker missing the close price "c" is rejected, and
a Coinbase subscription-confirmation message (discriminant neither flat
"ticker" nor envelope channel "ticker") is rejected. -/
theorem parse_missing_field_spec_witness :
    binanceParseJson c3MissingClose ≠ BinanceOutcome.ok
        { pair := "SOL/USDC".toList, bid := 100, ask := 102, last := 101, volume_24h := 0 }
    ∧ coinbaseParseJson cSubscriptionsJson ≠ Except.ok
        { pair := "SOL/USDC".toList, bid := 100, ask := 102, last := 101, volume_24h := 0 } := by
  constructor
  · exact parse_missing_field_spec.1 c3MissingClose _
      (Or.inr (Or.inr (Or.inr (Or.inl rfl))))
  · exact parse_missing_field_spec.2 cSubscriptionsJson _
      (Or.inl ⟨by decide, by decide⟩)

/-- C4: a well-formed ticker message of either exchange format parses to Ok
of a Price whose bid, ask and last are exactly the rationals denoted by the
input's decimal strings, and whose pair is the canonical BASE/QUOTE form
derived from the symbol (midpoint split) or product id (dash to slash). -/
theorem parse_wellformed_spec :
    (∀ (v : Json) (sym last_str bid_str ask_str : Str) (last bid ask volume : Rat),
      jGetStr v "e".toList = some "24hrTicker".toList →
      jGetStr v "s".toList = some sym → asciiStr sym → 6 ≤ sym.length →
      jGetStr v "c".toList = some last_str → from_str_exact last_str = some last →
      jGetStr v "b".toList = some bid_str → from_str_exact bid_str = some bid →
      jGetStr v "a".toList = some ask_str → from_str_exact ask_str = some ask →
      from_str_exact ((jGetStr v "v".toList).getD "0".toList) = some volume →
      binanceParseJson v = BinanceOutcome.ok
        { pair := sym.take (sym.length / 2) ++ '/' :: sym.drop (sym.length / 2),
          bid := bid, ask := ask, last := last, volume_24h := volume })
    ∧ (∀ (v t : Json) (pid last_str bid_str ask_str : Str) (last bid ask volume : Rat),
      coinbaseTicker v = Except.ok t →
      jGetStr t "product_id".toList = some pid →
      jGetStr t "price".toList = some last_str → from_str_exact last_str = some last →
      jGetStr t "best_bid".toList = some bid_str → from_str_exact bid_str = some bid →
      jGetStr t "best_ask".toList = some ask_str → from_str_exact ask_str = some ask →
      from_str_exact (coinbaseVolumeStr t) = some volume →
      coinbaseParseJson v = Except.ok
        { pair := product_id_to_pair pid, bid := bid, ask := ask, last := last,
          volume_24h := volume }) := by
  constructor
  · intro v sym last_str bid_str ask_str last bid ask volume he hs hsym h6 hc hqc hb hqb ha hqa hv
    have hsp := symbol_to_pair_of_ascii hsym h6
    simp only [binanceParseJson, he, hs, hsp, hc, hb, ha, hqc, hqb, hqa, hv]
    simp
  · intro v t pid last_str bid_str ask_str last bid ask volume ht hp hc hqc hb hqb ha hqa hv
    simp only [coinbaseParseJson, ht, hp, hc, hb, ha, hqc, hqb, hqa, hv]

/-- C4 witness: the repository's own well-formed ticker examples for both
exchanges parse to the exact decimal values and canonical pairs. -/
theorem parse_wellformed_spec_witness :
    binanceParseJson c4BinanceJson = BinanceOutcome.ok
      { pair := "SOL/USDC".toList, bid := 14348 / 100, ask := 14352 / 100,
        last := 1435 / 10, volume_24h := 123456789 / 100 }
    ∧ coinbaseParseJson c4CoinbaseJson = Except.ok
      { pair := "SOL/USDC".toList, bid := 14348 / 100, ask := 14352 / 100,
        last := 1435 / 10, volume_24h := 123456789 / 100 } := by
  constructor
  · have h := parse_wellformed_spec.1 c4BinanceJson "SOLUSDC".toList
      "143.50".toList "143.48".toList "143.52".toList
      ((1 * 14350 : Int) / (10 ^ 2 : Nat) : Rat) ((1 * 14348 : Int) / (10 ^ 2 : Nat) : Rat)
      ((1 * 14352 : Int) / (10 ^ 2 : Nat) : Rat) ((1 * 123456789 : Int) / (10 ^ 2 : Nat) : Rat)
      rfl rfl (by decide) (by decide) rfl rfl rfl rfl rfl rfl rfl
    rw [h]
    norm_num [Price.mk.injEq]
  · have h := parse_wellformed_spec.2 c4CoinbaseJson c4CoinbaseJson "SOL-USDC".toList
      "143.50".toList "143.48".toList "143.52".toList
      ((1 * 14350 : Int) / (10 ^ 2 : Nat) : Rat) ((1 * 14348 : Int) / (10 ^ 2 : Nat) : Rat)
      ((1 * 14352 : Int) / (10 ^ 2 : Nat) : Rat) ((1 * 123456789 : Int) / (10 ^ 2 : Nat) : Rat)
      rfl rfl rfl rfl rfl rfl rfl rfl rfl
    rw [h]
    norm_num [Price.mk.injEq]
    decide

/-- C10 (amended): BinanceParser::parse never panics on messages whose
byte-index slice points fall on character boundaries — in particular on
all-ASCII messages (with all-ASCII symbol field); on other inputs the
byte-index slicing panics, as the counterexample shows. -/
theorem binance_parse_no_panic_spec (m : Str) (j : Option Json)
    (hm : asciiStr m)
    (hj : ∀ v, j = some v → ∀ s, jGetStr v "s".toList = some s → asciiStr s) :
    binanceParse m j ≠ BinanceOutcome.panic := by
  unfold binanceParse
  cases hp : binancePreview m with
  | none => exact absurd hp (binancePreview_ascii_ne_none hm)
  | some pv =>
    cases j with
    | none => simp
    | some v =>
      have hnone : ∀ s, jGetStr v "s".toList = some s → symbol_to_pair s ≠ none :=
        fun s hs => symbol_to_pair_ascii_ne_none (hj v rfl s hs)
      show binanceParseJson v ≠ BinanceOutcome.panic
      unfold binanceParseJson
      (repeat' split) <;> try simp_all
      (repeat' split) <;> simp_all

/-- C10 counterexample: a 202-byte message whose bytes 199-200 hold the
two-byte character £ makes the preview slice panic before any JSON handling,
and a ticker whose 6-byte symbol ££AB straddles the byte midpoint makes the
symbol split panic; parse is therefore not panic-free on all inputs. -/
theorem binance_parse_no_panic_counterexample :
    byteLen c10Message = 202
    ∧ binanceParse c10Message none = BinanceOutcome.panic
    ∧ binanceParseJson c10SymbolJson = BinanceOutcome.panic := by
  exact ⟨rfl, rfl, rfl⟩

/-- C10 witness: a short ASCII message does not panic. -/
theorem binance_parse_no_panic_spec_witness :
    binanceParse "hello".toList none ≠ BinanceOutcome.panic :=
  binance_parse_no_panic_spec "hello".toList none (by decide)
    (fun v hv => nomatch hv)
